import Mathlib

/-!
# Formal model of gotkit's online image pipeline

This development embeds, in Lean, the parts of the `gotkit` repository that
its specification makes checkable claims about:

* `gtkutil/imgutil/imgutil.go` — `MaxSize`, `Opts.onDone`, `get`, the pixbuf
  loading pipeline;
* `gtkutil/imgutil/http.go` — `urlIsInvalid`, `markURLInvalid`, `fetchURL`,
  `fetchImage`, `getBody`, `downloadTo`;
* `gtkutil/imgutil/ffmpeg.go` — the idle-callback handoff of `FFmpegOpts.Do`;
* `internal/cachegc/gc.go` — `cacheGC.do`, the deletion pass, `IsFile`,
  `WithTmpFile`;
* `components/onlineimage/scaler.go` — `pixbufScaler.invalidate`,
  `pixbufScaler.SetFromPixbuf`;
* `components/onlineimage/base.go` — `baseImage.startAnimation`.

Modelling conventions:

* Go `time.Time` / `time.Duration` values are embedded as `Int` (Unix
  nanoseconds or, where the source stores whole seconds, Unix seconds; each
  definition says which).
* Go `float64` arithmetic in `MaxSize` is embedded as exact rational (`ℚ`)
  arithmetic; `math.Round` (round half away from zero) is `goRound` below.
* Side effects (network calls, idle-callback scheduling, file removals,
  callback invocations) are reified as explicit event lists, and external
  oracles (the network, the image decoder) are passed as function parameters.
* GTK/gdk-pixbuf objects are opaque: a pixbuf is a numeric identity tag plus
  its dimensions, which is all the embedded code inspects.
-/

namespace Gotkit

/-! ## Rounding (Go `math.Round` on exact rationals)

Go's `math.Round` rounds half away from zero.  On nonnegative arguments this
agrees with Mathlib's `round` (round half up), which `goRound_eq_round` below
records. -/

/-- Go `math.Round`: round to nearest, ties away from zero. -/
def goRound (q : ℚ) : ℤ :=
  if 0 ≤ q then ⌊q + 1 / 2⌋ else -⌊-q + 1 / 2⌋

theorem goRound_eq_round (q : ℚ) (h : 0 ≤ q) : goRound q = round q := by
  simp only [goRound, if_pos h, round_eq]

/-! ## `MaxSize` (src/gtkutil/imgutil/imgutil.go lines 515–538)

```go
func MaxSize(w, h, maxW, maxH int) (int, int) {
    if w == 0 { w = maxW }
    if h == 0 { h = maxH }
    if w < maxW && h < maxH { return w, h }
    wf := float64(w)
    hf := float64(h)
    scale := math.Min(float64(maxW)/wf, float64(maxH)/hf)
    w = int(math.Round(wf * scale))
    h = int(math.Round(hf * scale))
    return w, h
}
```
-/

/-- Embedding of `imgutil.MaxSize`, with `float64` arithmetic modelled as
exact rational arithmetic. -/
def MaxSize (w h maxW maxH : ℤ) : ℤ × ℤ :=
  let w := if w = 0 then maxW else w
  let h := if h = 0 then maxH else h
  if w < maxW ∧ h < maxH then (w, h)
  else
    let wf : ℚ := (w : ℚ)
    let hf : ℚ := (h : ℚ)
    let scale : ℚ := min ((maxW : ℚ) / wf) ((maxH : ℚ) / hf)
    (goRound (wf * scale), goRound (hf * scale))

/-! ## The disk-cache GC deletion pass (src/internal/cachegc/gc.go lines 56–69)

```go
go func() {
    files, _ := os.ReadDir(path)
    for _, file := range files {
        s, err := file.Info()
        if err != nil { continue }
        if s.ModTime().Add(age).Before(now) {
            os.Remove(filepath.Join(path, file.Name()))
        }
    }
    ...
}()
```

A directory listing is a list of entries; `file.Info()` may fail, which is
modelled by `info : Option FileInfo` (`none` = the `err != nil` branch).
`os.Remove`'s result is discarded by the source, so the pass is fully
described by the list of names it asks the OS to remove.  Times are Unix
nanoseconds. -/

/-- Result of `file.Info()` for one directory entry. -/
structure FileInfo where
  modTime : Int
deriving DecidableEq, Repr

/-- One entry of `os.ReadDir`; `info = none` models the `file.Info()` error
branch. -/
structure DirEntry where
  name : String
  info : Option FileInfo
deriving DecidableEq, Repr

/-- The GC deletion pass: the names the loop passes to `os.Remove`.
`s.ModTime().Add(age).Before(now)` is `modTime + age < now`. -/
def gcPass (now age : Int) (files : List DirEntry) : List String :=
  files.filterMap fun file =>
    match file.info with
    | none => none
    | some s => if s.modTime + age < now then some file.name else none

/-! ## GC cooldown (src/internal/cachegc/gc.go lines 12–54 and 71–74)

```go
const gcPeriod = 10 * time.Minute

var (
    gcs  = map[string]*cacheGC{}
    gcMu sync.Mutex
)

func Do(path string, age time.Duration) {
    gcMu.Lock()
    gc, ok := gcs[path]
    if !ok { gc = &cacheGC{}; gcs[path] = gc }
    gcMu.Unlock()
    gc.do(path, age)
}

type cacheGC struct { mut sync.Mutex; lastRun time.Time; running bool }

func (c *cacheGC) do(path string, age time.Duration) {
    now := time.Now()
    c.mut.Lock()
    if c.running || c.lastRun.Add(gcPeriod).After(now) {
        c.mut.Unlock()
        return
    }
    c.running = true
    c.lastRun = now
    c.mut.Unlock()
    go func() { ...deletion pass...; c.mut.Lock(); c.running = false; c.mut.Unlock() }()
}
```

Times are Unix nanoseconds. -/

/-- `gcPeriod = 10 * time.Minute` in nanoseconds. -/
def gcPeriod : Int := 10 * 60 * 1000000000

/-- Go's zero `time.Time` (January 1, year 1 UTC) as Unix nanoseconds: the
`lastRun` of the zero-value `cacheGC{}` that `Do` lazily creates. -/
def goZeroTimeUnixNano : Int := -62135596800000000000

/-- The per-directory `cacheGC` struct (its mutex is implicit: each event
below is one critical section). -/
structure CacheGC where
  lastRun : Int
  running : Bool
deriving DecidableEq, Repr

/-- The synchronous guard of `cacheGC.do`: no-op while a pass is running or
within `gcPeriod` of the last run; otherwise stamp `lastRun := now`, mark
running and start the asynchronous deletion pass.  The `Bool` reports
whether the pass was started. -/
def cacheGCDo (c : CacheGC) (now : Int) : CacheGC × Bool :=
  if c.running ∨ c.lastRun + gcPeriod > now then (c, false)
  else ({ lastRun := now, running := true }, true)

/-- The background goroutine's last act: clear `running` (lines 71–73). -/
def cacheGCFinish (c : CacheGC) : CacheGC :=
  { c with running := false }

/-- The package-level `gcs : map[string]*cacheGC` table. -/
def GCTable : Type := String → Option CacheGC

/-- The `gcs[path]` lookup of `Do`, with the lazily created zero value. -/
def gcLookup (t : GCTable) (path : String) : CacheGC :=
  match t path with
  | some c => c
  | none => { lastRun := goZeroTimeUnixNano, running := false }

/-- `Do(path, age)` at wall-clock time `now`: look up (or lazily create) the
directory's `cacheGC` and run its guard.  Returns the new table and whether
the deletion pass started. -/
def gcTableDo (t : GCTable) (path : String) (now : Int) : GCTable × Bool :=
  let r := cacheGCDo (gcLookup t path) now
  (fun p => if p = path then some r.1 else t p, r.2)

/-- An externally visible event of the `cachegc` package: a `Do` call for a
directory at a wall-clock time, or a previously started background pass for
a directory finishing. -/
inductive GCEvent where
  | call (path : String) (now : Int)
  | finish (path : String)

/-- One event over the `gcs` table; the second component is the deletion
pass the event started, if any, as `(directory, start time)`. -/
def gcStep (t : GCTable) : GCEvent → GCTable × List (String × Int)
  | .call path now =>
      let r := gcTableDo t path now
      (r.1, if r.2 then [(path, now)] else [])
  | .finish path =>
      match t path with
      | none => (t, [])
      | some c => (fun p => if p = path then some (cacheGCFinish c) else t p, [])

/-- Run a sequence of events, collecting the deletion passes started. -/
def gcRun (t : GCTable) : List GCEvent → GCTable × List (String × Int)
  | [] => (t, [])
  | e :: es =>
      let r := gcStep t e
      let rest := gcRun r.1 es
      (rest.1, r.2 ++ rest.2)

/-- The start times of the deletion passes belonging to one directory. -/
def passTimes (p : String) (l : List (String × Int)) : List Int :=
  l.filterMap fun x => if x.1 = p then some x.2 else none

/-! ## Animation controller (src/components/onlineimage/base.go lines 22–24 and 184–271)

```go
const MaxFPS = 50
const maxFPSDelay = 1000 / MaxFPS

func (b *baseImage) startAnimation() {
    if b.animation == nil || b.animation.pixbuf == nil || b.animation.paused {
        return
    }
    iter := b.animation.pixbuf.Iter(nil)
    setter := b.imageParent.set()
    base := gtk.BaseWidget(b.imageParent)
    scale := base.ScaleFactor()
    if scale == 0 { return }
    ...
    useIter(iter)               // kickstart: setter.SetFromPixbuf(p)
    scheduleNext()              // animating = glib.TimeoutAddPriority(delay, ...)
}                               // or, delay == -1: b.stopAnimation()

func (b *baseImage) stopAnimation() {
    if b.animation == nil { return }
    if b.animation.animating != 0 {
        glib.SourceRemove(b.animation.animating)
        b.animation.animating = 0
    }
    b.finishStopAnimation()
}
```

`b.animation == nil` means animation was never enabled (`enableAnimation`
not called); `pixbuf == nil` means the fetched source had no animation. -/

/-- `MaxFPS` (base.go line 22). -/
def MaxFPS : Int := 50

/-- `maxFPSDelay = 1000 / MaxFPS` (base.go line 24). -/
def maxFPSDelay : Int := 1000 / MaxFPS

/-- `animDelay` (base.go lines 260–271): clamp the frame's declared delay
from below by `maxFPSDelay`, keeping the `-1` end-of-animation sentinel. -/
def animDelay (delayMs : Int) : Int :=
  if delayMs = -1 then -1
  else if delayMs < maxFPSDelay then maxFPSDelay else delayMs

/-- The `animation` struct (base.go lines 43–47): whether the fetched
`PixbufAnimation` is present, the `animating` GLib source handle (`0` =
nothing scheduled) and the paused flag.  The pixbuf itself is opaque. -/
structure AnimationState where
  pixbufSet : Bool
  animating : Nat
  paused : Bool
deriving DecidableEq, Repr

/-- The observable acts of `startAnimation` / `stopAnimation`: the direct
setter call of `useIter`, the scaler calls of `finishStopAnimation`, and the
GLib source operations. -/
inductive AnimEvent where
  | setFromPixbuf
  | scalerSetFromPixbuf
  | scalerInvalidate
  | timeoutAdd (handle : Nat) (delayMs : Int)
  | sourceRemove (handle : Nat)
deriving DecidableEq, Repr

/-- `baseImage.stopAnimation` with `finishStopAnimation` (base.go lines
238–258), on the `b.animation` field (`none` = never enabled). -/
def stopAnimation : Option AnimationState → Option AnimationState × List AnimEvent
  | none => (none, [])
  | some st =>
      let r : AnimationState × List AnimEvent :=
        if st.animating ≠ 0 then ({ st with animating := 0 }, [.sourceRemove st.animating])
        else (st, [])
      (some r.1, r.2 ++ [if st.pixbufSet then .scalerSetFromPixbuf else .scalerInvalidate])

/-- `baseImage.startAnimation` (base.go lines 184–236).  `scale` is the
widget's scale factor, `firstDelay` the iterator's `DelayTime()` for the
current frame, and `fresh` the (nonzero) handle `glib.TimeoutAddPriority`
returns when a recurring callback is scheduled. -/
def startAnimation (a : Option AnimationState) (scale firstDelay : Int) (fresh : Nat) :
    Option AnimationState × List AnimEvent :=
  match a with
  | none => (none, [])
  | some st =>
      if st.pixbufSet = false ∨ st.paused then (some st, [])
      else if scale = 0 then (some st, [])
      else
        let d := animDelay firstDelay
        if d ≠ -1 then
          -- scheduleNext: b.animation.animating = glib.TimeoutAddPriority(...)
          (some { st with animating := fresh },
           [.setFromPixbuf, .timeoutAdd fresh d])
        else
          -- end of animation: b.stopAnimation()
          let r := stopAnimation (some st)
          (r.1, .setFromPixbuf :: r.2)

/-! ## FFmpeg provider idle-callback handoff (src/gtkutil/imgutil/ffmpeg.go lines 42–81)

```go
glib.IdleAdd(func() {
    select {
    case <-ctx.Done():
        o.Error(ctx.Err())
    default:
    }

    switch {
    case img.SetFromPixbuf != nil:
        img.SetFromPixbuf(p)
    case img.SetFromPaintable != nil:
        img.SetFromPaintable(gdk.NewTextureForPixbuf(p))
    }
})
```

Note the `ctx.Done()` case of the `select` does not return: control falls
through to the `switch`.  Contrast `loadPixbuf`'s idle callback
(imgutil.go lines 425–470), which returns inside the `ctx.Done()` case. -/

/-- Which function fields of the `ImageSetter` bag (imgutil.go) are non-nil. -/
structure ImageSetterShape where
  hasSetFromPixbuf : Bool
  hasSetFromAnimation : Bool
  hasSetFromPaintable : Bool
deriving DecidableEq, Repr

/-- Calls an idle-scheduled completion callback can make. -/
inductive HandoffEvent where
  | errorCall
  | setFromPixbuf
  | setFromPaintable
  | setFromAnimation
deriving DecidableEq, Repr

/-- The idle callback `FFmpegOpts.Do` schedules (ffmpeg.go lines 66–79),
run when the main loop is idle with the context either cancelled or not. -/
def ffmpegIdleHandoff (ctxCancelled : Bool) (img : ImageSetterShape) : List HandoffEvent :=
  (if ctxCancelled then [.errorCall] else []) ++
  (if img.hasSetFromPixbuf then [.setFromPixbuf]
   else if img.hasSetFromPaintable then [.setFromPaintable]
   else [])

/-- The idle callback `loadPixbuf` schedules (imgutil.go lines 425–470),
with the sizer bookkeeping elided: on a cancelled context it logs and
returns before touching any setter.  `isStatic` is
`loader.Animation().IsStaticImage()`. -/
def loadPixbufIdleHandoff (ctxCancelled isStatic : Bool) (img : ImageSetterShape) :
    List HandoffEvent :=
  if ctxCancelled then []
  else if img.hasSetFromAnimation ∧ isStatic = false then [.setFromAnimation]
  else if img.hasSetFromPixbuf then [.setFromPixbuf]
  else if img.hasSetFromPaintable then [.setFromPaintable]
  else []

/-! ## The sequential fetch pipeline
(src/gtkutil/imgutil/imgutil.go, src/gtkutil/imgutil/http.go,
src/internal/cachegc/gc.go lines 77–140)

One request running alone: `get` → `fetchImage` → (`loadPixbufFromFile` |
`fetchURL` → `WithTmpFile` → `downloadTo` → `getBody`).  The per-URL mutex
of `fetchURL` is uncontended here; the concurrent interleavings of that
mutex are analysed separately at the end of this file.

Conventions for this section:
* `nowSec` is `time.Now().Unix()` (whole seconds), the unit `invalidURLs`
  stores; `httputil.HashURL` and the SHA-1 cache filename are modeled as
  injective encodings of the URL string.
* The network is the oracle `net : String → Option HTTPResponse`
  (`none` = transport error from `client.Do`); gdk-pixbuf decoding is the
  oracle pair `decodeOK, isStatic : List Nat → Bool` over the file's bytes.
* `os.MkdirAll` and `os.CreateTemp` are modeled as succeeding; the one
  filesystem failure kept is renaming onto a directory, which yields the
  `cacheError` classification (`FetchErr.cacheErr`).
* A cancelled context is the flag `ctxCancelled`.  `parallel.Acquire`
  succeeds even on a done context when permits are free (as
  `semaphore.Acquire` does), so cancellation surfaces in `client.Do` and in
  the idle-callback handoffs. -/

/-- A disk entry: a regular file with bytes, or a directory. -/
inductive FSNode where
  | file (bytes : List Nat)
  | dir
deriving DecidableEq, Repr

/-- Errors of the pipeline, one constructor per `error` value the embedded
code produces. -/
inductive FetchErr where
  | emptyURL            -- errors.New("empty URL given")
  | urlNotFound         -- errURLNotFound = "URL not found (cached)"
  | canceled            -- context.Canceled (possibly wrapped)
  | cacheErr            -- cachegc.cacheError
  | httpStatus (code : Nat)  -- "unexpected status code %d getting %q"
  | netErr              -- transport failure from client.Do
  | openErr             -- os.Open failure in loadPixbufFileManual
  | decodeErr           -- pixbuf loader failure
deriving DecidableEq, Repr

/-- What `client.Do` returned: status code and body. -/
structure HTTPResponse where
  statusCode : Nat
  body : List Nat
deriving DecidableEq, Repr

/-- Observable side effects of one pipeline run. -/
inductive FetchEvent where
  | netGET                        -- client.Do reached the network
  | gcRunEvent                    -- cachegc.Do on the cache directory
  | tmpCreated                    -- os.CreateTemp in WithTmpFile
  | fnCalled                      -- WithTmpFile invoked its callback
  | doneCall (err : Option FetchErr)  -- the done callback ran (on idle)
  | setPixbuf                     -- img.SetFromPixbuf
  | setAnimation                  -- img.SetFromAnimation
  | setPaintable                  -- img.SetFromPaintable
  | logErrEvent                   -- slog/log fallback output
deriving DecidableEq, Repr

/-- The process-wide mutable state the pipeline touches: `invalidURLs`
(hashed URL → Unix seconds) and the disk. -/
structure ImgState where
  invalid : List (String × Int)
  files : List (String × FSNode)
deriving DecidableEq, Repr

/-- `sync.Map.Store` / map overwrite on an association list. -/
def alInsert {α : Type} (k : String) (v : α) (l : List (String × α)) :
    List (String × α) :=
  (k, v) :: l.filter fun x => x.1 ≠ k

/-- The deterministic cache path for a URL (http.go lines 200–204); the
SHA-1 + base64url encoding is modeled as an injective tag. -/
def urlPath (url : String) : String :=
  "img2/" ++ url

/-- `urlIsInvalid` (http.go lines 47–63): an entry younger than one hour
short-circuits; an older entry is deleted and does not. -/
def urlIsInvalid (st : ImgState) (nowSec : Int) (url : String) : Bool × ImgState :=
  match st.invalid.lookup url with
  | none => (false, st)
  | some t =>
      if t + 3600 > nowSec then (true, st)
      else (false, { st with invalid := st.invalid.filter fun x => x.1 ≠ url })

/-- `markURLInvalid` (http.go lines 65–67). -/
def markURLInvalid (st : ImgState) (nowSec : Int) (url : String) : ImgState :=
  { st with invalid := alInsert url nowSec st.invalid }

/-- `cachegc.IsFile` (gc.go lines 77–84): true iff the path exists and is
not a directory. -/
def IsFile (files : List (String × FSNode)) (path : String) : Bool :=
  match files.lookup path with
  | some (.file _) => true
  | some .dir => false
  | none => false

/-- `getBody` (http.go lines 175–198).  Statuses outside [200,299] error;
[400,499] additionally populates `invalidURLs` with the current time. -/
def getBody (net : String → Option HTTPResponse) (ctxCancelled : Bool)
    (st : ImgState) (nowSec : Int) (url : String) :
    Except FetchErr (List Nat) × ImgState × List FetchEvent :=
  if ctxCancelled then (.error .canceled, st, [])
  else
    match net url with
    | none => (.error .netErr, st, [.netGET])
    | some r =>
        if r.statusCode < 200 ∨ 299 < r.statusCode then
          let st' := if 400 ≤ r.statusCode ∧ r.statusCode ≤ 499
                     then markURLInvalid st nowSec url else st
          (.error (.httpStatus r.statusCode), st', [.netGET])
        else (.ok r.body, st, [.netGET])

/-- `downloadTo` (http.go lines 161–173): `getBody` plus `io.Copy` onto the
temp file; the copied bytes are the returned value. -/
def downloadTo (net : String → Option HTTPResponse) (ctxCancelled : Bool)
    (st : ImgState) (nowSec : Int) (url : String) :
    Except FetchErr (List Nat) × ImgState × List FetchEvent :=
  getBody net ctxCancelled st nowSec url

/-- `cachegc.WithTmpFile` (gc.go lines 112–140): short-circuit when the
destination is already a file; otherwise make a temp file, run the
callback, and atomically rename its output to `dst`. -/
def WithTmpFile (st : ImgState) (dst : String)
    (fn : ImgState → Except FetchErr (List Nat) × ImgState × List FetchEvent) :
    Option FetchErr × ImgState × List FetchEvent :=
  if IsFile st.files dst then (none, st, [])
  else
    let r := fn st
    match r.1 with
    | .error e => (some e, r.2.1, .tmpCreated :: .fnCalled :: r.2.2)
    | .ok bytes =>
        match r.2.1.files.lookup dst with
        | some .dir => (some .cacheErr, r.2.1, .tmpCreated :: .fnCalled :: r.2.2)
        | _ => (none, { r.2.1 with files := alInsert dst (.file bytes) r.2.1.files },
                .tmpCreated :: .fnCalled :: r.2.2)

/-- `cachegc.WithTmp` (gc.go lines 105–110): hands the callback the temp
file's name instead of its handle, which this abstraction cannot tell
apart. -/
def WithTmp (st : ImgState) (dst : String)
    (fn : ImgState → Except FetchErr (List Nat) × ImgState × List FetchEvent) :
    Option FetchErr × ImgState × List FetchEvent :=
  WithTmpFile st dst fn

/-- The idle-scheduled setter handoff shared by `loadPixbufFromFile`'s fast
path (imgutil.go lines 319–351) and `loadPixbuf` (lines 425–470): on a done
context it logs and returns; otherwise exactly one setter is called, a real
animation preferring `SetFromAnimation`. -/
def idleHandoffEvents (ctxCancelled isStatic : Bool) (img : ImageSetterShape) :
    List FetchEvent :=
  if ctxCancelled then []
  else if img.hasSetFromAnimation ∧ isStatic = false then [.setAnimation]
  else if img.hasSetFromPixbuf then [.setPixbuf]
  else if img.hasSetFromPaintable then [.setPaintable]
  else [.logErrEvent]

/-- `loadPixbufFromFile` (imgutil.go lines 298–354): open and decode the
cached file (fast animation path or manual loader path, both collapsed
into the decode oracle), then schedule the idle handoff. -/
def loadPixbufFromFile (files : List (String × FSNode)) (ctxCancelled : Bool)
    (path : String) (img : ImageSetterShape) (decodeOK isStatic : List Nat → Bool) :
    Option FetchErr × List FetchEvent :=
  match files.lookup path with
  | some (.file bytes) =>
      if decodeOK bytes then (none, idleHandoffEvents ctxCancelled (isStatic bytes) img)
      else (some .decodeErr, [])
  | _ => (some .openErr, [])

/-- `loadPixbuf` on a direct network stream (imgutil.go lines 384–473), used
by `fetchImage`'s cache-bypass fallback. -/
def loadPixbufStream (ctxCancelled : Bool) (body : List Nat)
    (img : ImageSetterShape) (decodeOK isStatic : List Nat → Bool) :
    Option FetchErr × List FetchEvent :=
  if decodeOK body then (none, idleHandoffEvents ctxCancelled (isStatic body) img)
  else (some .decodeErr, [])

/-- `fetchURL` (http.go lines 110–159) in the uncontended single-request
case: the per-URL mutex is acquired at once; under the lock the Negative
Cache is re-checked, then `WithTmpFile` populates the cache (its `IsFile`
check is the cache re-check the waiters rely on). -/
def fetchURL (net : String → Option HTTPResponse) (ctxCancelled : Bool)
    (nowSec : Int) (st : ImgState) (url cacheDst : String) :
    Option FetchErr × ImgState × List FetchEvent :=
  let inv := urlIsInvalid st nowSec url
  if inv.1 then (some .urlNotFound, inv.2, [])
  else
    WithTmpFile inv.2 cacheDst fun st1 => downloadTo net ctxCancelled st1 nowSec url

/-- `fetchImage` (http.go lines 69–108).  Note the Go scoping at lines
88–107: the `err` tested by `cachegc.IsCacheError(err)` and returned at the
bottom is the outer `err` of `loadPixbufFromFile` (line 81), not the
shadowed `err := fetchURL(...)` of line 88 — the model reproduces this. -/
def fetchImage (net : String → Option HTTPResponse) (decodeOK isStatic : List Nat → Bool)
    (ctxCancelled : Bool) (nowSec : Int) (st : ImgState) (url : String)
    (img : ImageSetterShape) : Option FetchErr × ImgState × List FetchEvent :=
  if url = "" then (some .emptyURL, st, [])
  else
    let inv := urlIsInvalid st nowSec url
    if inv.1 then (some .urlNotFound, inv.2, [])
    else
      let st1 := inv.2
      let cacheDst := urlPath url
      let load1 := loadPixbufFromFile st1.files ctxCancelled cacheDst img decodeOK isStatic
      -- cachegc.Do(cacheDir, CacheAge): starts the asynchronous GC of the
      -- previous section; its file removals are not interleaved into this run
      let evs := load1.2 ++ [FetchEvent.gcRunEvent]
      match load1.1 with
      | none => (none, st1, evs)
      | some loadErr =>
          let fr := fetchURL net ctxCancelled nowSec st1 url cacheDst
          match fr.1 with
          | none =>
              let load2 := loadPixbufFromFile fr.2.1.files ctxCancelled cacheDst img
                decodeOK isStatic
              (load2.1, fr.2.1, evs ++ fr.2.2 ++ load2.2)
          | some _ =>
              if loadErr = .cacheErr then
                -- cache bypass: stream the body straight to the decoder
                let gb := getBody net ctxCancelled fr.2.1 nowSec url
                match gb.1 with
                | .error e2 => (some e2, gb.2.1, evs ++ fr.2.2 ++ gb.2.2)
                | .ok body =>
                    let lp := loadPixbufStream ctxCancelled body img decodeOK isStatic
                    (lp.1, gb.2.1, evs ++ fr.2.2 ++ gb.2.2 ++ lp.2)
              else (some loadErr, fr.2.1, evs ++ fr.2.2)

/-- The caller-facing `Opts` state that matters to completion: whether a
done callback is still registered (`o.done != nil`). -/
structure OptsM where
  hasDone : Bool
deriving DecidableEq, Repr

/-- `Opts.onDone` (imgutil.go lines 86–102): run the done callback once on
idle and drop it; with none registered, a nil or `context.Canceled` error
is silent and anything else is logged. -/
def onDone (o : OptsM) (err : Option FetchErr) : OptsM × List FetchEvent :=
  if o.hasDone then ({ hasDone := false }, [.doneCall err])
  else if err = none ∨ err = some .canceled then (o, [])
  else (o, [.logErrEvent])

/-- `get` (imgutil.go lines 273–296): the common body of `GET` and
`AsyncGET`.  An empty URL completes at once; otherwise `fetchImage` runs
(on a goroutine for `AsyncGET`, inline for `GET` — indistinguishable in
this one-request model) and `onDone` receives its error, or `ctx.Err()`
when it succeeded under a cancelled context. -/
def get (net : String → Option HTTPResponse) (decodeOK isStatic : List Nat → Bool)
    (ctxCancelled : Bool) (nowSec : Int) (st : ImgState) (url : String)
    (img : ImageSetterShape) (o : OptsM) : OptsM × ImgState × List FetchEvent :=
  if url = "" then
    let r := onDone o none
    (r.1, st, r.2)
  else
    let fr := fetchImage net decodeOK isStatic ctxCancelled nowSec st url img
    let finalErr : Option FetchErr :=
      match fr.1 with
      | none => if ctxCancelled then some .canceled else none
      | some e => some e
    let dn := onDone o finalErr
    (dn.1, fr.2.1, fr.2.2 ++ dn.2)

/-- `GET` (imgutil.go lines 268–271). -/
def GET (net : String → Option HTTPResponse) (decodeOK isStatic : List Nat → Bool)
    (ctxCancelled : Bool) (nowSec : Int) (st : ImgState) (url : String)
    (img : ImageSetterShape) (o : OptsM) : OptsM × ImgState × List FetchEvent :=
  get net decodeOK isStatic ctxCancelled nowSec st url img o

/-- `AsyncGET` (imgutil.go lines 258–266). -/
def AsyncGET (net : String → Option HTTPResponse) (decodeOK isStatic : List Nat → Bool)
    (ctxCancelled : Bool) (nowSec : Int) (st : ImgState) (url : String)
    (img : ImageSetterShape) (o : OptsM) : OptsM × ImgState × List FetchEvent :=
  get net decodeOK isStatic ctxCancelled nowSec st url img o

/-! ## The rescaling cache (src/components/onlineimage/scaler.go lines 11–137)

`pixbufScaler` keeps up to `maxScale = 3` scaled variants of its source
pixbuf, one per integer display scale factor, keyed to the parent widget's
current size request.  A pixbuf is opaque pixel data: all the code reads of
it are its dimensions, and its identity — `ScaleSimple` allocates a fresh
object — is the tag `id`.  The fresh tag a `ScaleSimple` call would use is
passed in as `freshId`. -/

/-- `maxScale` (scaler.go line 13). -/
def maxScale : Int := 3

/-- A `*gdkpixbuf.Pixbuf`: an identity tag plus the dimensions. -/
structure Pixbuf where
  id : Nat
  width : Int
  height : Int
deriving DecidableEq, Repr

/-- The `pixbufScales [maxScale]*gdkpixbuf.Pixbuf` array (scaler.go line 16):
cached variants for the 1x, 2x and 3x scale factors. -/
structure PixbufScales where
  s1 : Option Pixbuf
  s2 : Option Pixbuf
  s3 : Option Pixbuf
deriving DecidableEq, Repr

/-- The zero value `pixbufScales{}`. -/
def PixbufScales.empty : PixbufScales := ⟨none, none, none⟩

/-- `p.scales[scale-1]` for `scale ∈ {1,2,3}` (GTK scale factors are
positive; the code only indexes after ruling out `scale = 0` and
`scale > maxScale`). -/
def PixbufScales.read (p : PixbufScales) (scale : Int) : Option Pixbuf :=
  if scale = 1 then p.s1 else if scale = 2 then p.s2
  else if scale = 3 then p.s3 else none

/-- `p.scales[scale-1] = v`. -/
def PixbufScales.write (p : PixbufScales) (scale : Int) (v : Pixbuf) : PixbufScales :=
  if scale = 1 then { p with s1 := some v } else if scale = 2 then { p with s2 := some v }
  else if scale = 3 then { p with s3 := some v } else p

/-- The `pixbufScaler` struct (scaler.go lines 18–27). -/
structure PixbufScaler where
  parentSz : Int × Int
  scales : PixbufScales
  src : Option Pixbuf
deriving DecidableEq, Repr

/-- What the parent widget supplies: `parent.ScaleFactor()` and
`parent.sizeRequest()`. -/
structure ScalerEnv where
  scale : Int
  sizeReq : Int × Int
deriving DecidableEq, Repr

/-- The observable acts of `pixbufScaler.invalidate`. -/
inductive ScalerEvent where
  | setParentPixbuf (p : Option Pixbuf)  -- p.setParentPixbuf / setter.SetFromPixbuf
  | scaleSimple (newId : Nat)            -- p.src.ScaleSimple allocated a pixbuf
deriving DecidableEq, Repr

/-- The tail of `pixbufScaler.invalidate` (scaler.go lines 100–137), after
the parent-size bookkeeping: scale the target up by the display scale
factor, fall back to the unscaled source when it would not shrink or the
scale factor is unsupported, and otherwise serve — filling on a miss — the
per-scale cache. -/
def pixbufScalerScale (p : PixbufScaler) (src : Pixbuf) (env : ScalerEnv)
    (freshId : Nat) : PixbufScaler × List ScalerEvent :=
  let dstW := env.sizeReq.1 * env.scale
  let dstH := env.sizeReq.2 * env.scale
  if dstW ≥ src.width ∨ dstH ≥ src.height then (p, [.setParentPixbuf (some src)])
  else if env.scale > maxScale then (p, [.setParentPixbuf (some src)])
  else
    match p.scales.read env.scale with
    | some pixbuf => (p, [.setParentPixbuf (some pixbuf)])
    | none =>
        let pixbuf := if dstW = src.width ∧ dstH = src.height then src
                      else ⟨freshId, dstW, dstH⟩
        let evs := if dstW = src.width ∧ dstH = src.height
                   then ([] : List ScalerEvent)
                   else [ScalerEvent.scaleSimple freshId]
        ({ p with scales := p.scales.write env.scale pixbuf },
         evs ++ [.setParentPixbuf (some pixbuf)])

/-- `pixbufScaler.invalidate` (scaler.go lines 72–137): no source ⇒ hand
`nil` up; a zero scale factor (no allocation yet) ⇒ do nothing; a
degenerate size request ⇒ hand the unscaled source up; a changed parent
size ⇒ drop every cached variant; then `pixbufScalerScale`. -/
def pixbufScalerInvalidate (p : PixbufScaler) (env : ScalerEnv) (freshId : Nat) :
    PixbufScaler × List ScalerEvent :=
  match p.src with
  | none => (p, [.setParentPixbuf none])
  | some src =>
      if env.scale = 0 then (p, [])
      else if env.sizeReq.1 < 1 ∨ env.sizeReq.2 < 1 then (p, [.setParentPixbuf (some src)])
      else
        let p := if p.parentSz ≠ env.sizeReq
                 then { p with scales := PixbufScales.empty, parentSz := env.sizeReq }
                 else p
        pixbufScalerScale p src env freshId

/-- `pixbufScaler.SetFromPixbuf` (scaler.go lines 31–35): replace the
source, drop every cached variant, and rescale. -/
def pixbufScalerSetFromPixbuf (p : PixbufScaler) (pixbuf : Option Pixbuf)
    (env : ScalerEnv) (freshId : Nat) : PixbufScaler × List ScalerEvent :=
  pixbufScalerInvalidate { p with src := pixbuf, scales := PixbufScales.empty }
    env freshId

/-- The pixbuf an `invalidate` run handed to the parent's setter, if any. -/
def handedPixbuf (evs : List ScalerEvent) : Option (Option Pixbuf) :=
  (evs.filterMap fun e =>
    match e with
    | .setParentPixbuf q => some q
    | _ => none).head?

/-! ## Concurrent `fetchURL` (src/gtkutil/imgutil/http.go lines 110–159)

```go
func fetchURL(ctx context.Context, url, cacheDst string) error {
    // How this works: we acquire a mutex for each request so that only 1
    // request per URL is ever sent. ... This way, only 1 parallel
    // request per URL is ever done ...

    fetchingMu.Lock()
    urlMut, ok := fetchingURLs[url]
    if !ok {
        urlMut = &sync.Mutex{}
        fetchingURLs[url] = urlMut
    }
    fetchingMu.Unlock()

    defer func() {
        fetchingMu.Lock()
        delete(fetchingURLs, url)
        fetchingMu.Unlock()
    }()

    urlMut.Lock()
    defer urlMut.Unlock()

    if urlIsInvalid(url) { return errURLNotFound }

    if err := parallel.Acquire(ctx, 1); err != nil { ... }
    defer parallel.Release(1)

    err := cachegc.WithTmpFile(cacheDst, "*", func(f *os.File) error {
        return downloadTo(ctx, url, f)
    })
    ...
}
```

An interleaving semantics for N goroutines all running `fetchURL` for the
SAME url (distinct urls touch disjoint map entries and mutexes).  Each
goroutine is a program counter plus the `urlMut` pointer it captured;
mutexes are numbered by creation.  One scheduler step runs the next atomic
instruction of the chosen goroutine, or nothing if it is blocked:

* pc 0 — the `fetchingMu` critical section: read `fetchingURLs[url]`,
  creating a fresh mutex on a miss (lines 119–125);
* pc 1 — `urlMut.Lock()` (blocks while another goroutine holds THAT mutex);
* pc 2 — the `urlIsInvalid` re-check; when the url is negative-cached the
  call returns early (to the deferred unlock and delete, pc 7).  In the
  trace below the negative cache stays empty: the failing transfer is a
  500-class or transport error, which `getBody` does not record;
* pc 3 — `parallel.Acquire` (blocks when the semaphore is exhausted);
* pc 4 — `WithTmpFile`'s `IsFile(cacheDst)` check: skip to pc 6 on a hit,
  else begin the network transfer;
* pc 5 — the transfer in flight; its completion succeeds or fails per the
  `succeeds` oracle (a failure is e.g. a 500 or a transport error, which
  does not populate the negative cache); success renames the temp file in,
  making `IsFile` true;
* pc 6/7/8 — the deferred `parallel.Release`, `urlMut.Unlock()` and
  `delete(fetchingURLs, url)`, in Go's LIFO defer order;
* pc 9 — returned.

A goroutine is performing a network transfer exactly while its pc is 5. -/

/-- One goroutine running `fetchURL`: its next instruction and the
`urlMut` it read from the lock table (0 = none yet; real ids start at 1). -/
structure FetchThread where
  pc : Nat
  mutexId : Nat
deriving DecidableEq, Repr

/-- The shared state: the goroutines, `fetchingURLs[url]` (the mutex id, if
the entry is present), the fresh-mutex counter, which goroutine holds which
mutex, whether the url is negative-cached, whether `cacheDst` exists, the
free semaphore permits, and how many network transfers have been
started. -/
structure FetchSys where
  threads : List FetchThread
  tableEntry : Option Nat
  nextMutex : Nat
  heldBy : List (Nat × Nat)
  invalid : Bool
  cached : Bool
  sema : Nat
  transfers : Nat
deriving DecidableEq, Repr

/-- Run one atomic instruction of goroutine `i` (no-op when `i` is blocked
or done). -/
def fetchStep (succeeds : Nat → Bool) (s : FetchSys) (i : Nat) : FetchSys :=
  match s.threads.get? i with
  | none => s
  | some th =>
      match th.pc with
      | 0 =>
          match s.tableEntry with
          | some m => { s with threads := s.threads.set i { pc := 1, mutexId := m } }
          | none =>
              { s with
                threads := s.threads.set i { pc := 1, mutexId := s.nextMutex },
                tableEntry := some s.nextMutex,
                nextMutex := s.nextMutex + 1 }
      | 1 =>
          if (s.heldBy.lookup th.mutexId).isSome then s
          else { s with
                 heldBy := (th.mutexId, i) :: s.heldBy,
                 threads := s.threads.set i { th with pc := 2 } }
      | 2 =>
          if s.invalid then { s with threads := s.threads.set i { th with pc := 7 } }
          else { s with threads := s.threads.set i { th with pc := 3 } }
      | 3 =>
          if s.sema = 0 then s
          else { s with
                 sema := s.sema - 1,
                 threads := s.threads.set i { th with pc := 4 } }
      | 4 =>
          if s.cached then { s with threads := s.threads.set i { th with pc := 6 } }
          else { s with
                 transfers := s.transfers + 1,
                 threads := s.threads.set i { th with pc := 5 } }
      | 5 =>
          { s with
            cached := s.cached || succeeds i,
            threads := s.threads.set i { th with pc := 6 } }
      | 6 => { s with sema := s.sema + 1, threads := s.threads.set i { th with pc := 7 } }
      | 7 =>
          { s with
            heldBy := s.heldBy.filter fun x => x.1 ≠ th.mutexId,
            threads := s.threads.set i { th with pc := 8 } }
      | 8 =>
          { s with
            tableEntry := none,
            threads := s.threads.set i { th with pc := 9 } }
      | _ => s

/-- Run a schedule (a list of goroutine indices). -/
def fetchRun (succeeds : Nat → Bool) (s : FetchSys) (sched : List Nat) : FetchSys :=
  sched.foldl (fetchStep succeeds) s

/-- How many goroutines have a network transfer in flight. -/
def activeTransfers (s : FetchSys) : Nat :=
  (s.threads.filter fun th => th.pc = 5).length

/-- Three goroutines all calling `fetchURL` for the same url, nothing
cached, no negative-cache entry, 16 free semaphore permits
(4·GOMAXPROCS with 4 CPUs). -/
def fetchInit : FetchSys :=
  { threads := [⟨0, 0⟩, ⟨0, 0⟩, ⟨0, 0⟩]
    tableEntry := none
    nextMutex := 1
    heldBy := []
    invalid := false
    cached := false
    sema := 16
    transfers := 0 }

/-- Goroutine 0's transfer fails (e.g. a 500 response); the others would
succeed. -/
def fetchOracle : Nat → Bool := fun i => i != 0

/-- The interleaving that defeats the single-flight lock: goroutine 0
creates mutex 1, locks it and starts its transfer; goroutine 1 reads the
same mutex and blocks; goroutine 0's transfer fails, it unlocks and — the
deferred cleanup — deletes the table entry; goroutine 1 now locks mutex 1,
misses the cache and starts a transfer; goroutine 2 arrives, finds no
table entry, creates mutex 2, locks it at once and starts its own
transfer. -/
def fetchBadSchedule : List Nat :=
  [0, 0, 0, 0, 0, 1, 0, 0, 0, 0, 1, 1, 1, 1, 2, 2, 2, 2, 2]

end Gotkit

namespace Gotkit

/-! ## Theorems -/

theorem passTimes_append (p : String) (a b : List (String × Int)) :
    passTimes p (a ++ b) = passTimes p a ++ passTimes p b := by
  simp [passTimes]

/-- Every pass a run starts for directory `p` begins at least `gcPeriod`
after the `lastRun` recorded for `p` at the start of the run. -/
theorem gcRun_pass_lb (es : List GCEvent) :
    ∀ (t : GCTable) (p : String) (c : CacheGC), t p = some c →
      ∀ x ∈ passTimes p (gcRun t es).2, c.lastRun + gcPeriod ≤ x := by
  induction es with
  | nil =>
      intro t p c _ x hx
      simp [gcRun, passTimes] at hx
  | cons e es ih =>
      intro t p c hc x hx
      have hper : (0 : Int) ≤ gcPeriod := by norm_num [gcPeriod]
      cases e with
      | call q now =>
          simp only [gcRun, gcStep, gcTableDo] at hx
          by_cases hguard :
              (gcLookup t q).running = true ∨ (gcLookup t q).lastRun + gcPeriod > now
          · -- the guard refuses: state for q unchanged, no pass emitted
            simp only [cacheGCDo, if_pos hguard, Bool.false_eq_true, if_false,
              List.nil_append] at hx
            refine ih _ p c ?_ x hx
            by_cases hpq : p = q
            · subst hpq; simp [hc, gcLookup]
            · simp [hpq, hc]
          · -- the guard passes: pass (q, now) emitted, lastRun := now
            simp only [cacheGCDo, if_neg hguard, if_true] at hx
            rw [passTimes_append, List.mem_append] at hx
            push_neg at hguard
            rcases hx with hx | hx
            · -- x is the emitted pass: it is for q, so p = q and x = now
              by_cases hpq : q = p
              · subst hpq
                simp only [passTimes, List.filterMap, if_pos rfl] at hx
                simp at hx
                subst hx
                have hl : gcLookup t q = c := by simp [gcLookup, hc]
                rw [hl] at hguard
                linarith [hguard.2]
              · simp [passTimes, hpq] at hx
            · -- x comes from the rest of the run
              by_cases hpq : p = q
              · subst hpq
                have hlb := ih _ p { lastRun := now, running := true } (by simp) x hx
                have hl : gcLookup t p = c := by simp [gcLookup, hc]
                rw [hl] at hguard
                simp only at hlb
                linarith [hguard.2]
              · exact ih _ p c (by simp [hpq, hc]) x hx
      | finish q =>
          simp only [gcRun, gcStep] at hx
          cases htq : t q with
          | none =>
              rw [htq] at hx
              simp only [List.nil_append] at hx
              exact ih _ p c hc x hx
          | some cq =>
              rw [htq] at hx
              simp only [List.nil_append] at hx
              by_cases hpq : p = q
              · subst hpq
                rw [hc] at htq
                cases htq
                have := ih _ p (cacheGCFinish c) (by simp) x hx
                simpa [cacheGCFinish] using this
              · exact ih _ p c (by simp [hpq, hc]) x hx

/-- Consecutive passes started for one directory are at least `gcPeriod`
apart. -/
theorem gcRun_chain (es : List GCEvent) :
    ∀ (t : GCTable) (p : String),
      (passTimes p (gcRun t es).2).Chain' (fun a b => a + gcPeriod ≤ b) := by
  induction es with
  | nil => intro t p; simp [gcRun, passTimes]
  | cons e es ih =>
      intro t p
      cases e with
      | call q now =>
          simp only [gcRun, gcStep, gcTableDo]
          by_cases hguard :
              (gcLookup t q).running = true ∨ (gcLookup t q).lastRun + gcPeriod > now
          · simp only [cacheGCDo, if_pos hguard, Bool.false_eq_true, if_false,
              List.nil_append]
            exact ih _ p
          · simp only [cacheGCDo, if_neg hguard, if_true]
            rw [passTimes_append]
            by_cases hpq : q = p
            · subst hpq
              have hone : passTimes q [(q, now)] = [now] := by simp [passTimes]
              rw [hone, List.singleton_append, List.chain'_cons']
              constructor
              · intro b hb
                have hb' : b ∈ passTimes q (gcRun _ es).2 :=
                  List.mem_of_mem_head? hb
                have := gcRun_pass_lb es _ q { lastRun := now, running := true }
                  (by simp) b hb'
                simpa using this
              · exact ih _ q
            · have hnone : passTimes p [(q, now)] = [] := by simp [passTimes, hpq]
              rw [hnone, List.nil_append]
              exact ih _ p
      | finish q =>
          simp only [gcRun, gcStep]
          cases htq : t q with
          | none => simpa using ih _ p
          | some cq => simpa using ih _ p

/-- **C7.** (1) A `Do` call for a directory no-ops — the `gcs` table is
unchanged and no deletion pass starts — whenever a pass is already running
for that directory or less than the 10-minute `gcPeriod` has elapsed since
its last run.  (2) Over any sequence of `Do` calls and pass completions,
the deletion passes started for any one directory are pairwise at least
`gcPeriod` apart, so the pass runs at most once within any cooldown
window. -/
theorem gc_cooldown_spec :
    (∀ (t : GCTable) (path : String) (now : Int) (c : CacheGC),
        t path = some c → (c.running = true ∨ c.lastRun + gcPeriod > now) →
        gcTableDo t path now = (t, false)) ∧
    (∀ (t : GCTable) (es : List GCEvent) (p : String),
        (passTimes p (gcRun t es).2).Chain' (fun a b => a + gcPeriod ≤ b)) := by
  constructor
  · intro t path now c hc hguard
    have hl : gcLookup t path = c := by simp [gcLookup, hc]
    simp only [gcTableDo, cacheGCDo, hl, if_pos hguard]
    refine Prod.ext ?_ rfl
    funext p
    by_cases hp : p = path
    · subst hp; simp [hc]
    · simp [hp]
  · intro t es p
    exact gcRun_chain es t p

/-- Witness for `gc_cooldown_spec`: a table whose only entry has a running
pass refuses a new `Do` call. -/
theorem gc_cooldown_spec_witness :
    gcTableDo (fun p => if p = "img2" then some ⟨0, true⟩ else none) "img2" 5 =
      ((fun p => if p = "img2" then some ⟨0, true⟩ else none), false) :=
  gc_cooldown_spec.1 _ "img2" 5 ⟨0, true⟩ (by simp) (Or.inl rfl)

/-- **C3, counterexample.** `Start` while playback is already active
(`animating = 5 ≠ 0`, a frame delay of 20ms ahead) is not a no-op: the
stored handle is overwritten by the freshly scheduled callback's handle `9`
and a second recurring callback now exists (no `sourceRemove 5` is ever
issued for the old one). -/
theorem startAnimation_active_counterexample :
    startAnimation (some ⟨true, 5, false⟩) 1 20 9 =
      (some ⟨true, 9, false⟩, [.setFromPixbuf, .timeoutAdd 9 20]) ∧
    startAnimation (some ⟨true, 5, false⟩) 1 20 9 ≠
      (some ⟨true, 5, false⟩, []) := by
  constructor <;> decide

/-- **C3, amended.** `Start` is a no-op — the animation state, including the
scheduled-callback handle, is unchanged and nothing is scheduled — whenever
animation was never enabled, the source has no animation, or playback is
paused.  (When playback is already active, `Start` is not a no-op: it
schedules an additional recurring callback and overwrites the stored
handle, see `startAnimation_active_counterexample`.) -/
theorem startAnimation_noop_spec (a : Option AnimationState)
    (scale firstDelay : Int) (fresh : Nat)
    (h : a = none ∨ ∃ st, a = some st ∧ (st.pixbufSet = false ∨ st.paused = true)) :
    startAnimation a scale firstDelay fresh = (a, []) := by
  rcases h with h | ⟨st, rfl, hst⟩
  · subst h; rfl
  · simp only [startAnimation]
    rw [if_pos hst]

/-- Witness for `startAnimation_noop_spec`: `Start` on a paused animation. -/
theorem startAnimation_noop_spec_witness :
    startAnimation (some ⟨true, 0, true⟩) 1 20 9 = (some ⟨true, 0, true⟩, []) :=
  startAnimation_noop_spec (some ⟨true, 0, true⟩) 1 20 9
    (Or.inr ⟨⟨true, 0, true⟩, rfl, Or.inr rfl⟩)

theorem lookup_filter_ne {α : Type} (l : List (String × α)) (k : String) :
    (l.filter fun x => x.1 ≠ k).lookup k = none := by
  induction l with
  | nil => rfl
  | cons hd tl ih =>
      rcases hd with ⟨a, b⟩
      by_cases h : a = k
      · have hdrop : (decide ((a, b).1 ≠ k)) = false := by simp [h]
        rw [List.filter_cons, hdrop]
        simpa using ih
      · have hkeep : (decide ((a, b).1 ≠ k)) = true := by simp [h]
        have hbeq : (k == a) = false := beq_eq_false_iff_ne.mpr (Ne.symm h)
        rw [List.filter_cons, hkeep, if_pos rfl, List.lookup_cons, hbeq]
        exact ih

/-- On a cache miss with no fresh negative-cache entry, `fetchURL` reaches
the network whatever the response turns out to be. -/
theorem fetchURL_miss_netGET (net : String → Option HTTPResponse) (nowSec : Int)
    (st : ImgState) (url cacheDst : String)
    (hinv : st.invalid.lookup url = none)
    (hmiss : st.files.lookup cacheDst = none) :
    FetchEvent.netGET ∈ (fetchURL net false nowSec st url cacheDst).2.2 := by
  have hfile : IsFile st.files cacheDst = false := by simp [IsFile, hmiss]
  simp only [fetchURL, urlIsInvalid, hinv]
  simp only [Bool.false_eq_true, if_false, WithTmpFile, hfile, downloadTo, getBody]
  cases hnet : net url with
  | none => simp
  | some r =>
      by_cases hcode : r.statusCode < 200 ∨ 299 < r.statusCode
      · simp [hcode]
      · simp only [if_neg hcode]
        simp [hmiss]

/-- **C4.** (1) With a Negative Cache entry for the URL younger than one
hour, `fetchImage` fails at once with the "URL not found (cached)" error,
leaving the state untouched and performing no effect at all — no network
call.  (2) The same short-circuit holds at the re-check inside `fetchURL`,
i.e. after the per-URL mutex is acquired.  (3) Once the entry is an hour or
more old it no longer short-circuits: on a cache miss the entry is dropped
and a new network call is attempted. -/
theorem negative_cache_ttl_spec :
    (∀ (net : String → Option HTTPResponse) (decodeOK isStatic : List Nat → Bool)
        (cancelled : Bool) (nowSec : Int) (st : ImgState) (url : String)
        (img : ImageSetterShape) (t : Int),
        url ≠ "" → st.invalid.lookup url = some t → t + 3600 > nowSec →
        fetchImage net decodeOK isStatic cancelled nowSec st url img =
          (some .urlNotFound, st, [])) ∧
    (∀ (net : String → Option HTTPResponse) (cancelled : Bool) (nowSec : Int)
        (st : ImgState) (url cacheDst : String) (t : Int),
        st.invalid.lookup url = some t → t + 3600 > nowSec →
        fetchURL net cancelled nowSec st url cacheDst =
          (some .urlNotFound, st, [])) ∧
    (∀ (net : String → Option HTTPResponse) (decodeOK isStatic : List Nat → Bool)
        (nowSec : Int) (st : ImgState) (url : String) (img : ImageSetterShape)
        (t : Int),
        url ≠ "" → st.invalid.lookup url = some t → t + 3600 ≤ nowSec →
        st.files.lookup (urlPath url) = none →
        FetchEvent.netGET ∈
          (fetchImage net decodeOK isStatic false nowSec st url img).2.2) := by
  refine ⟨?_, ?_, ?_⟩
  · intro net dOK iS c now st url img t hurl hlk hyoung
    simp [fetchImage, urlIsInvalid, hlk, hurl, if_pos hyoung]
  · intro net c now st url dst t hlk hyoung
    simp [fetchURL, urlIsInvalid, hlk, if_pos hyoung]
  · intro net dOK iS now st url img t hurl hlk hold hmiss
    have hnot : ¬ (t + 3600 > now) := not_lt.mpr hold
    set st' : ImgState := { st with invalid := st.invalid.filter fun x => x.1 ≠ url }
      with hst'
    have h1 : urlIsInvalid st now url = (false, st') := by
      simp [urlIsInvalid, hlk, hnot, hst']
    have h2 : loadPixbufFromFile st'.files false (urlPath url) img dOK iS =
        (some .openErr, []) := by
      simp [loadPixbufFromFile, hst', hmiss]
    have hnet := fetchURL_miss_netGET net now st' url (urlPath url)
      (lookup_filter_ne st.invalid url) hmiss
    simp only [fetchImage, if_neg hurl, h1, h2]
    rcases hfr : fetchURL net false now st' url (urlPath url) with ⟨ferr, fst, fevs⟩
    rw [hfr] at hnet
    simp only at hnet
    cases ferr with
    | none => simp [hnet]
    | some fe =>
        by_cases hce : (FetchErr.openErr = FetchErr.cacheErr)
        · exact absurd hce (by decide)
        · simp [hce, hnet]

/-- Witness for `negative_cache_ttl_spec`, part 1 at a concrete young
entry: `t = 100`, `now = 200` (younger than an hour). -/
theorem negative_cache_ttl_spec_witness :
    fetchImage (fun _ => none) (fun _ => false) (fun _ => false) false 200
        ⟨[("u", 100)], []⟩ "u" ⟨false, false, false⟩ =
      (some .urlNotFound, ⟨[("u", 100)], []⟩, []) :=
  negative_cache_ttl_spec.1 (fun _ => none) (fun _ => false) (fun _ => false)
    false 200 ⟨[("u", 100)], []⟩ "u" ⟨false, false, false⟩ 100
    (by decide) (by decide) (by decide)

/-- **C9.** (1) When the destination already exists as a regular file,
`WithTmpFile` (and `WithTmp`) returns nil at once: the callback is never
invoked, no temporary file is created, and the filesystem state is
untouched.  (2) Consequently a `fetchImage` for an already-cached,
decodable key succeeds off the cached file alone: no network call, no
temp file, state (hence the cached bytes) unchanged — the only effects are
the idle setter handoff and the GC kick. -/
theorem cached_key_no_refetch_spec :
    (∀ (st : ImgState) (dst : String)
        (fn : ImgState → Except FetchErr (List Nat) × ImgState × List FetchEvent),
        IsFile st.files dst = true →
        WithTmpFile st dst fn = (none, st, []) ∧ WithTmp st dst fn = (none, st, [])) ∧
    (∀ (net : String → Option HTTPResponse) (decodeOK isStatic : List Nat → Bool)
        (nowSec : Int) (st : ImgState) (url : String) (img : ImageSetterShape)
        (bytes : List Nat),
        url ≠ "" → st.invalid.lookup url = none →
        st.files.lookup (urlPath url) = some (.file bytes) →
        decodeOK bytes = true →
        fetchImage net decodeOK isStatic false nowSec st url img =
          (none, st, idleHandoffEvents false (isStatic bytes) img ++
            [FetchEvent.gcRunEvent])) := by
  constructor
  · intro st dst fn hfile
    constructor <;> simp [WithTmpFile, WithTmp, hfile]
  · intro net dOK iS now st url img bytes hurl hinv hcache hdec
    have h1 : urlIsInvalid st now url = (false, st) := by
      simp [urlIsInvalid, hinv]
    have h2 : loadPixbufFromFile st.files false (urlPath url) img dOK iS =
        (none, idleHandoffEvents false (iS bytes) img) := by
      simp [loadPixbufFromFile, hcache, hdec]
    simp [fetchImage, if_neg hurl, h1, h2]

/-- Witness for `cached_key_no_refetch_spec`, part 2 at a concrete cached
file. -/
theorem cached_key_no_refetch_spec_witness :
    fetchImage (fun _ => none) (fun _ => true) (fun _ => true) false 0
        ⟨[], [("img2/u", .file [1, 2])]⟩ "u" ⟨true, false, false⟩ =
      (none, ⟨[], [("img2/u", .file [1, 2])]⟩,
        [FetchEvent.setPixbuf, FetchEvent.gcRunEvent]) :=
  cached_key_no_refetch_spec.2 (fun _ => none) (fun _ => true) (fun _ => true)
    0 ⟨[], [("img2/u", .file [1, 2])]⟩ "u" ⟨true, false, false⟩ [1, 2]
    (by decide) (by decide) (by decide) (by decide)

/-- **C10.** `GET` and `AsyncGET` with an empty URL: the registered done
callback is invoked exactly once, with a nil error; no setter is called, no
network, cache or decode effect happens, and the state is untouched. -/
theorem get_emptyURL_spec (net : String → Option HTTPResponse)
    (decodeOK isStatic : List Nat → Bool) (cancelled : Bool) (nowSec : Int)
    (st : ImgState) (img : ImageSetterShape) (o : OptsM)
    (h : o.hasDone = true) :
    GET net decodeOK isStatic cancelled nowSec st "" img o =
      ({ hasDone := false }, st, [.doneCall none]) ∧
    AsyncGET net decodeOK isStatic cancelled nowSec st "" img o =
      ({ hasDone := false }, st, [.doneCall none]) := by
  constructor <;> simp [GET, AsyncGET, get, onDone, h]

/-- Witness for `get_emptyURL_spec` at concrete oracles and options. -/
theorem get_emptyURL_spec_witness :
    GET (fun _ => none) (fun _ => false) (fun _ => false) false 0 ⟨[], []⟩ ""
        ⟨true, true, true⟩ ⟨true⟩ =
      (⟨false⟩, ⟨[], []⟩, [.doneCall none]) ∧
    AsyncGET (fun _ => none) (fun _ => false) (fun _ => false) false 0 ⟨[], []⟩ ""
        ⟨true, true, true⟩ ⟨true⟩ =
      (⟨false⟩, ⟨[], []⟩, [.doneCall none]) :=
  get_emptyURL_spec (fun _ => none) (fun _ => false) (fun _ => false) false 0
    ⟨[], []⟩ ⟨true, true, true⟩ ⟨true⟩ rfl

theorem pixbufScales_read_write (p : PixbufScales) (s k : Int) (v : Pixbuf) :
    (p.write s v).read k =
      if k = s ∧ (s = 1 ∨ s = 2 ∨ s = 3) then some v else p.read k := by
  simp only [PixbufScales.write, PixbufScales.read]
  split_ifs <;> simp_all

theorem pixbufScales_read_empty (k : Int) : PixbufScales.empty.read k = none := by
  simp only [PixbufScales.empty, PixbufScales.read]
  split_ifs <;> rfl

theorem pixbufScalerScale_src (p : PixbufScaler) (src : Pixbuf) (env : ScalerEnv)
    (f : Nat) : (pixbufScalerScale p src env f).1.src = p.src := by
  unfold pixbufScalerScale
  by_cases h1 : env.sizeReq.1 * env.scale ≥ src.width ∨
      env.sizeReq.2 * env.scale ≥ src.height
  · simp [h1]
  · by_cases h2 : env.scale > maxScale
    · simp [h1, h2]
    · simp only [if_neg h1, if_neg h2]
      cases hre : p.scales.read env.scale <;> simp [hre]

theorem pixbufScalerScale_parentSz (p : PixbufScaler) (src : Pixbuf) (env : ScalerEnv)
    (f : Nat) : (pixbufScalerScale p src env f).1.parentSz = p.parentSz := by
  unfold pixbufScalerScale
  by_cases h1 : env.sizeReq.1 * env.scale ≥ src.width ∨
      env.sizeReq.2 * env.scale ≥ src.height
  · simp [h1]
  · by_cases h2 : env.scale > maxScale
    · simp [h1, h2]
    · simp only [if_neg h1, if_neg h2]
      cases hre : p.scales.read env.scale <;> simp [hre]

/-- Repeating `pixbufScalerScale` with the same environment is stable: same
final state, the identical pixbuf handed up, and no `ScaleSimple` call. -/
theorem pixbufScalerScale_repeat (p : PixbufScaler) (src : Pixbuf) (env : ScalerEnv)
    (f1 f2 : Nat) (hs : env.scale = 1 ∨ env.scale = 2 ∨ env.scale = 3) :
    (pixbufScalerScale (pixbufScalerScale p src env f1).1 src env f2).1 =
      (pixbufScalerScale p src env f1).1 ∧
    handedPixbuf (pixbufScalerScale (pixbufScalerScale p src env f1).1 src env f2).2 =
      handedPixbuf (pixbufScalerScale p src env f1).2 ∧
    ∀ n, ScalerEvent.scaleSimple n ∉
      (pixbufScalerScale (pixbufScalerScale p src env f1).1 src env f2).2 := by
  have hs3 : ¬ (env.scale > maxScale) := by
    rcases hs with h | h | h <;> simp [maxScale, h]
  by_cases h1 : env.sizeReq.1 * env.scale ≥ src.width ∨
      env.sizeReq.2 * env.scale ≥ src.height
  · simp [pixbufScalerScale, h1, handedPixbuf]
  · simp only [pixbufScalerScale, if_neg h1, if_neg hs3]
    cases hre : p.scales.read env.scale with
    | some pixbuf => simp [hre, handedPixbuf]
    | none =>
        have hrw : ∀ v : Pixbuf, ((p.scales.write env.scale v)).read env.scale = some v := by
          intro v
          rw [pixbufScales_read_write]
          simp [hs]
        by_cases heq : env.sizeReq.1 * env.scale = src.width ∧
            env.sizeReq.2 * env.scale = src.height
        · push_neg at h1
          exact absurd heq.1 (by omega)
        · simp [heq, hrw, handedPixbuf]

theorem pixbufScalerInvalidate_eq_scale (p : PixbufScaler) (env : ScalerEnv) (f : Nat)
    (src : Pixbuf) (hsrc : p.src = some src) (h0 : env.scale ≠ 0)
    (hdeg : ¬(env.sizeReq.1 < 1 ∨ env.sizeReq.2 < 1)) :
    pixbufScalerInvalidate p env f =
      pixbufScalerScale
        (if p.parentSz ≠ env.sizeReq
         then { p with scales := PixbufScales.empty, parentSz := env.sizeReq }
         else p) src env f := by
  simp [pixbufScalerInvalidate, hsrc, h0, hdeg]

/-- **C6.** (1) Running the rescaler twice against the same source, target
size and supported scale factor: the second run leaves the state untouched,
hands the parent setter the identical pixbuf instance the first run handed
it, and performs no `ScaleSimple` recompute.  (2) Whenever the target
allocated size differs from the recorded one, every previously cached
scaled variant is dropped: afterwards the slots of all other scale factors
are empty, and the current slot holds at most the pixbuf produced by this
very run (the source itself or a freshly allocated scale). -/
theorem rescale_cache_spec :
    (∀ (p : PixbufScaler) (env : ScalerEnv) (f1 f2 : Nat),
        env.scale = 1 ∨ env.scale = 2 ∨ env.scale = 3 →
        (pixbufScalerInvalidate (pixbufScalerInvalidate p env f1).1 env f2).1 =
          (pixbufScalerInvalidate p env f1).1 ∧
        handedPixbuf (pixbufScalerInvalidate (pixbufScalerInvalidate p env f1).1 env f2).2 =
          handedPixbuf (pixbufScalerInvalidate p env f1).2 ∧
        (∀ n, ScalerEvent.scaleSimple n ∉
            (pixbufScalerInvalidate (pixbufScalerInvalidate p env f1).1 env f2).2)) ∧
    (∀ (p : PixbufScaler) (env : ScalerEnv) (f : Nat) (src : Pixbuf),
        p.src = some src → env.scale ≠ 0 →
        ¬(env.sizeReq.1 < 1 ∨ env.sizeReq.2 < 1) → p.parentSz ≠ env.sizeReq →
        (∀ k : Int, k ≠ env.scale →
            (pixbufScalerInvalidate p env f).1.scales.read k = none) ∧
        ((pixbufScalerInvalidate p env f).1.scales.read env.scale = none ∨
         (pixbufScalerInvalidate p env f).1.scales.read env.scale = some src ∨
         ∃ pb, (pixbufScalerInvalidate p env f).1.scales.read env.scale = some pb ∧
            pb.id = f)) := by
  constructor
  · intro p env f1 f2 hs
    have h0 : ¬ env.scale = 0 := by rcases hs with h | h | h <;> omega
    rcases hsrc : p.src with _ | src
    · simp [pixbufScalerInvalidate, hsrc]
    · by_cases hdeg : env.sizeReq.1 < 1 ∨ env.sizeReq.2 < 1
      · simp [pixbufScalerInvalidate, hsrc, h0, hdeg]
      · have h1 := pixbufScalerInvalidate_eq_scale p env f1 src hsrc h0 hdeg
        set p1 : PixbufScaler :=
          if p.parentSz ≠ env.sizeReq
          then { p with scales := PixbufScales.empty, parentSz := env.sizeReq }
          else p with hp1
        have hp1src : p1.src = some src := by
          rw [hp1]; split_ifs <;> simp [hsrc]
        have hp1sz : p1.parentSz = env.sizeReq := by
          rw [hp1]; split_ifs with h
          · rfl
          · exact not_ne_iff.mp h
        have hs1src : (pixbufScalerScale p1 src env f1).1.src = some src := by
          rw [pixbufScalerScale_src]; exact hp1src
        have hs1sz : (pixbufScalerScale p1 src env f1).1.parentSz = env.sizeReq := by
          rw [pixbufScalerScale_parentSz]; exact hp1sz
        have h2 : pixbufScalerInvalidate (pixbufScalerScale p1 src env f1).1 env f2 =
            pixbufScalerScale (pixbufScalerScale p1 src env f1).1 src env f2 := by
          have := pixbufScalerInvalidate_eq_scale (pixbufScalerScale p1 src env f1).1
            env f2 src hs1src h0 hdeg
          rw [this, if_neg (by rw [hs1sz]; exact fun hcon => hcon rfl)]
        rw [h1, h2]
        exact pixbufScalerScale_repeat p1 src env f1 f2 hs
  · intro p env f src hsrc h0 hdeg hne
    have h1 := pixbufScalerInvalidate_eq_scale p env f src hsrc h0 hdeg
    rw [if_pos hne] at h1
    rw [h1]
    unfold pixbufScalerScale
    by_cases hbig : env.sizeReq.1 * env.scale ≥ src.width ∨
        env.sizeReq.2 * env.scale ≥ src.height
    · simp [hbig, pixbufScales_read_empty]
    · by_cases h3 : env.scale > maxScale
      · simp [hbig, h3, pixbufScales_read_empty]
      · simp only [if_neg hbig, if_neg h3]
        have hrd : PixbufScales.empty.read env.scale = none :=
          pixbufScales_read_empty env.scale
        simp only [hrd]
        constructor
        · intro k hk
          rw [pixbufScales_read_write]
          simp [hk, pixbufScales_read_empty]
        · rw [pixbufScales_read_write]
          by_cases hsup : env.scale = 1 ∨ env.scale = 2 ∨ env.scale = 3
          · by_cases heq : env.sizeReq.1 * env.scale = src.width ∧
                env.sizeReq.2 * env.scale = src.height
            · right; left; simp [hsup, heq]
            · right; right
              refine ⟨⟨f, env.sizeReq.1 * env.scale, env.sizeReq.2 * env.scale⟩, ?_, rfl⟩
              simp [hsup, heq]
          · left
            simp [hsup, pixbufScales_read_empty]

/-- Witness for `rescale_cache_spec`, part 2: a 100×100 source, a 10×10
request at 2x with a stale recorded size, and a stale 1x cached variant
that the run drops. -/
theorem rescale_cache_spec_witness :
    (∀ k : Int, k ≠ 2 →
        (pixbufScalerInvalidate
            ⟨(0, 0), ⟨some ⟨42, 1, 1⟩, none, none⟩, some ⟨1, 100, 100⟩⟩
            ⟨2, (10, 10)⟩ 5).1.scales.read k = none) ∧
    ((pixbufScalerInvalidate
          ⟨(0, 0), ⟨some ⟨42, 1, 1⟩, none, none⟩, some ⟨1, 100, 100⟩⟩
          ⟨2, (10, 10)⟩ 5).1.scales.read 2 = none ∨
     (pixbufScalerInvalidate
          ⟨(0, 0), ⟨some ⟨42, 1, 1⟩, none, none⟩, some ⟨1, 100, 100⟩⟩
          ⟨2, (10, 10)⟩ 5).1.scales.read 2 = some ⟨1, 100, 100⟩ ∨
     ∃ pb, (pixbufScalerInvalidate
          ⟨(0, 0), ⟨some ⟨42, 1, 1⟩, none, none⟩, some ⟨1, 100, 100⟩⟩
          ⟨2, (10, 10)⟩ 5).1.scales.read 2 = some pb ∧ pb.id = 5) :=
  rescale_cache_spec.2
    ⟨(0, 0), ⟨some ⟨42, 1, 1⟩, none, none⟩, some ⟨1, 100, 100⟩⟩
    ⟨2, (10, 10)⟩ 5 ⟨1, 100, 100⟩ rfl (by decide) (by decide) (by decide)

/-- **C1.** The single-flight lock of `fetchURL` is defeated by its own
deferred cleanup: every returning call deletes the `fetchingURLs` entry,
even while other goroutines still hold the old mutex.  After the schedule
`fetchBadSchedule` — three concurrent fetches of one url whose first
transfer fails — goroutines 1 and 2 hold DIFFERENT mutexes (ids 1 and 2)
for the same url and are both at pc 5: two network transfers for the same
key are active at the same time, and three transfers happened in all,
contradicting "at most one network fetch per key is active at a time" and
"exactly one network transfer". -/
theorem fetchURL_concurrent_bug :
    activeTransfers (fetchRun fetchOracle fetchInit fetchBadSchedule) = 2 ∧
    (fetchRun fetchOracle fetchInit fetchBadSchedule).transfers = 3 ∧
    (fetchRun fetchOracle fetchInit fetchBadSchedule).threads.get? 1 =
      some ⟨5, 1⟩ ∧
    (fetchRun fetchOracle fetchInit fetchBadSchedule).threads.get? 2 =
      some ⟨5, 2⟩ := by
  decide

/-- **C2.** The ffmpeg provider's idle handoff does NOT suppress the setter
on cancellation: with the context cancelled before the idle callback runs
and a non-nil `SetFromPixbuf`, the callback calls `o.Error(ctx.Err())` and
then still invokes `img.SetFromPixbuf` — the `select` has no `return`, so
control falls through to the `switch`.  The in-process decoder's handoff
(`loadPixbuf`) does suppress it under the same conditions. -/
theorem ffmpeg_cancelled_handoff_bug :
    ffmpegIdleHandoff true ⟨true, false, false⟩ = [.errorCall, .setFromPixbuf] ∧
    HandoffEvent.setFromPixbuf ∈ ffmpegIdleHandoff true ⟨true, false, false⟩ ∧
    loadPixbufIdleHandoff true true ⟨true, false, false⟩ = [] := by
  refine ⟨rfl, ?_, rfl⟩
  decide

/-- **C5.** For every positive source size `(w,h)` and positive maximum
`(maxW,maxH)`, the output `(w',h')` of `MaxSize` satisfies `w' ≤ maxW` and
`h' ≤ maxH`; it never upscales (`w' ≤ w`, `h' ≤ h`); the aspect ratio is
preserved within rounding (both components are within `1/2` of `w·s` and
`h·s` for one common nonnegative scale `s`); and when `w < maxW` and
`h < maxH` the source size is returned unchanged. -/
theorem maxSize_spec (w h maxW maxH : ℤ)
    (hw : 0 < w) (hh : 0 < h) (hW : 0 < maxW) (hH : 0 < maxH) :
    (MaxSize w h maxW maxH).1 ≤ maxW ∧
    (MaxSize w h maxW maxH).2 ≤ maxH ∧
    (MaxSize w h maxW maxH).1 ≤ w ∧
    (MaxSize w h maxW maxH).2 ≤ h ∧
    (∃ s : ℚ, 0 ≤ s ∧
      |((MaxSize w h maxW maxH).1 : ℚ) - (w : ℚ) * s| ≤ 1 / 2 ∧
      |((MaxSize w h maxW maxH).2 : ℚ) - (h : ℚ) * s| ≤ 1 / 2) ∧
    (w < maxW → h < maxH → MaxSize w h maxW maxH = (w, h)) := by
  have hw0 : w ≠ 0 := ne_of_gt hw
  have hh0 : h ≠ 0 := ne_of_gt hh
  simp only [MaxSize, if_neg hw0, if_neg hh0]
  by_cases hlt : w < maxW ∧ h < maxH
  · simp only [if_pos hlt]
    exact ⟨le_of_lt hlt.1, le_of_lt hlt.2, le_refl _, le_refl _,
      ⟨1, by norm_num, by norm_num, by norm_num⟩, by intro h1 h2; trivial⟩
  · simp only [if_neg hlt]
    set s : ℚ := min ((maxW : ℚ) / (w : ℚ)) ((maxH : ℚ) / (h : ℚ)) with hs
    have hwq : (0 : ℚ) < (w : ℚ) := by exact_mod_cast hw
    have hhq : (0 : ℚ) < (h : ℚ) := by exact_mod_cast hh
    have hWq : (0 : ℚ) < (maxW : ℚ) := by exact_mod_cast hW
    have hHq : (0 : ℚ) < (maxH : ℚ) := by exact_mod_cast hH
    have hs0 : 0 ≤ s := le_min (div_nonneg hWq.le hwq.le) (div_nonneg hHq.le hhq.le)
    have hws : (w : ℚ) * s ≤ (maxW : ℚ) := by
      calc (w : ℚ) * s ≤ (w : ℚ) * ((maxW : ℚ) / (w : ℚ)) :=
            mul_le_mul_of_nonneg_left (min_le_left _ _) hwq.le
        _ = (maxW : ℚ) := by field_simp
    have hhs : (h : ℚ) * s ≤ (maxH : ℚ) := by
      calc (h : ℚ) * s ≤ (h : ℚ) * ((maxH : ℚ) / (h : ℚ)) :=
            mul_le_mul_of_nonneg_left (min_le_right _ _) hhq.le
        _ = (maxH : ℚ) := by field_simp
    have hs1 : s ≤ 1 := by
      rcases not_and_or.mp hlt with hge | hge
      · have : maxW ≤ w := le_of_not_lt hge
        have : (maxW : ℚ) ≤ (w : ℚ) := by exact_mod_cast this
        exact le_trans (min_le_left _ _) ((div_le_one hwq).mpr this)
      · have : maxH ≤ h := le_of_not_lt hge
        have : (maxH : ℚ) ≤ (h : ℚ) := by exact_mod_cast this
        exact le_trans (min_le_right _ _) ((div_le_one hhq).mpr this)
    have hws0 : 0 ≤ (w : ℚ) * s := mul_nonneg hwq.le hs0
    have hhs0 : 0 ≤ (h : ℚ) * s := mul_nonneg hhq.le hs0
    have hrw : goRound ((w : ℚ) * s) = round ((w : ℚ) * s) := goRound_eq_round _ hws0
    have hrh : goRound ((h : ℚ) * s) = round ((h : ℚ) * s) := goRound_eq_round _ hhs0
    have round_le_of_le : ∀ (x : ℚ) (z : ℤ), x ≤ (z : ℚ) → round x ≤ z := by
      intro x z hx
      rw [round_eq]
      have hfl : ⌊x + 1 / 2⌋ < z + 1 :=
        Int.floor_lt.mpr (by push_cast; linarith)
      omega
    have hwle : (w : ℚ) * s ≤ (w : ℚ) := by
      have := mul_le_mul_of_nonneg_left hs1 hwq.le
      simpa using this
    have hhle : (h : ℚ) * s ≤ (h : ℚ) := by
      have := mul_le_mul_of_nonneg_left hs1 hhq.le
      simpa using this
    refine ⟨?_, ?_, ?_, ?_, ⟨s, hs0, ?_, ?_⟩, ?_⟩
    · rw [hrw]; exact round_le_of_le _ _ hws
    · rw [hrh]; exact round_le_of_le _ _ hhs
    · rw [hrw]; exact round_le_of_le _ _ hwle
    · rw [hrh]; exact round_le_of_le _ _ hhle
    · rw [hrw, abs_sub_comm]; exact abs_sub_round _
    · rw [hrh, abs_sub_comm]; exact abs_sub_round _
    · intro h1 h2
      exact absurd ⟨h1, h2⟩ hlt

/-- Witness for `maxSize_spec` at the concrete input `(w,h) = (100,50)`,
`(maxW,maxH) = (30,30)`. -/
theorem maxSize_spec_witness :
    (0 : ℤ) < 100 ∧ (0 : ℤ) < 50 ∧ (0 : ℤ) < 30 ∧ (0 : ℤ) < 30 ∧
    ((MaxSize 100 50 30 30).1 ≤ 30 ∧
     (MaxSize 100 50 30 30).2 ≤ 30 ∧
     (MaxSize 100 50 30 30).1 ≤ 100 ∧
     (MaxSize 100 50 30 30).2 ≤ 50 ∧
     (∃ s : ℚ, 0 ≤ s ∧
       |((MaxSize 100 50 30 30).1 : ℚ) - (100 : ℚ) * s| ≤ 1 / 2 ∧
       |((MaxSize 100 50 30 30).2 : ℚ) - (50 : ℚ) * s| ≤ 1 / 2) ∧
     ((100 : ℤ) < 30 → (50 : ℤ) < 30 → MaxSize 100 50 30 30 = (100, 50))) :=
  ⟨by decide, by decide, by decide, by decide,
    maxSize_spec 100 50 30 30 (by decide) (by decide) (by decide) (by decide)⟩

/-- **C8.** The GC deletion pass removes exactly the immediate entries whose
modification time is older than `now - age`: an entry's name is removed iff
its `Info()` call succeeded and `modTime + age < now`.  In particular entries
younger than the age are never removed, and an entry whose `Info()` errors is
skipped without aborting the pass (the characterization holds for every
entry of the list, whatever came before it). -/
theorem gcPass_spec (now age : Int) (files : List DirEntry) (r : String) :
    r ∈ gcPass now age files ↔
      ∃ f ∈ files, f.name = r ∧ ∃ s, f.info = some s ∧ s.modTime + age < now := by
  simp only [gcPass, List.mem_filterMap]
  constructor
  · rintro ⟨f, hf, hmatch⟩
    refine ⟨f, hf, ?_⟩
    cases hinfo : f.info with
    | none => simp [hinfo] at hmatch
    | some s =>
        simp only [hinfo] at hmatch
        by_cases hold : s.modTime + age < now
        · simp only [if_pos hold, Option.some.injEq] at hmatch
          exact ⟨hmatch, s, rfl, hold⟩
        · simp [if_neg hold] at hmatch
  · rintro ⟨f, hf, hname, s, hinfo, hold⟩
    exact ⟨f, hf, by simp [hinfo, if_pos hold, hname]⟩

end Gotkit
